import Mathlib

/-!
Verification of the go-arg command-line parsing library (src/parse.go, src/reflect.go)
against its natural-language specification.

The development is a shallow embedding of the two source files:

* `path` / `path.Child` embed the FieldPath type (parse.go lines 18-47).
* `GoTy` is the universe of Go types that the claims exercise: the numeric /
  string / bool scalars, slices, pointers, struct shapes (with their field
  tags) and an inadmissible `func` type.  Reflection over struct shapes is
  embedded as structural recursion over `GoTy`.
* `canParse` / `isBoolean` embed src/reflect.go; the go-scalar library is an
  external collaborator (spec section 6) and is modelled by `scalarCanParse` /
  `parseScalar` (signed decimal integers, strings, and strconv.ParseBool
  booleans, recursing through pointers).
* `cmdFromStructF` (with its helpers `walkF`, `visitF`, `processKeys`,
  `applyKey`) embeds
  the SchemaBuilder `cmdFromStruct` (parse.go lines 214-358).  The Go code
  recurses over reflected struct types; here the recursion is driven by an
  explicit fuel parameter so that every definition is structurally recursive
  and kernel-evaluable.  Fuel exhaustion yields a build error / identity
  fall-through that no theorem relies on (all concrete uses supply ample fuel,
  and the universal theorems quantify over the fuel).
* Destination records are embedded as a `Store`: a list associating a `path`
  with the `Value` last written there (absent entry = Go zero value / nil
  slice), mirroring `Parser.val` resolution followed by a reflective write.
* `process` (with `stepArgs`, `captureEnvVars`, `drainPositionals`,
  `checkRequired`, `setSliceAt`, `parseValueAt`, `collectValues`,
  `findOption`, `findSubcommand`, `isFlag`, `nextIsNumeric`) embeds the
  TokenInterpreter `Parser.process` (parse.go lines 379-711).  The main token
  loop walks the argument list with fuel `args.length`; since every iteration
  consumes at least one token this fuel is never exhausted.
* `parserParse` embeds `Parser.Parse` (parse.go lines 362-376).
* Runtime errors, which Go builds with `fmt.Errorf`, are embedded as the
  structured type `PErr` with one constructor per `fmt.Errorf` call site
  (carrying the same data the format string interpolates); build-time errors
  are kept as strings because the builder joins them textually.

Known deliberate model restrictions (none is exercised by a claim):
the `encoding/csv` reader used for multi-valued environment variables is
modelled as a plain comma split; a multi-valued field whose reflected type is
a pointer-to-slice (on which the Go `setSlice` would panic via `SetLen`) is
modelled as a write failure; a mid-list coercion failure in `setSlice` leaves
the store unchanged rather than recording the partial writes Go performs
before erroring (interpretation aborts on that error either way).
-/

/-- Embeds `path` (parse.go lines 20-23): index of the destination struct plus
the sequence of struct field names to traverse. -/
structure path where
  root : Nat
  fields : List String
deriving DecidableEq, Repr

/-- Embeds `strings.Join(elems, ".")`. -/
def joinDot : List String → String
  | [] => ""
  | [x] => x
  | x :: xs => x ++ "." ++ joinDot xs

/-- Embeds `path.String` (parse.go lines 31-36). -/
def path.toStr (p : path) : String :=
  if p.fields = [] then "args" else "args." ++ joinDot p.fields

/-- Embeds Go's `copy(dst, src)` builtin on slices: the first
`min |dst| |src|` elements of `dst` are overwritten by those of `src`. -/
def goCopy (dst src : List String) : List String :=
  src.take dst.length ++ dst.drop src.length

/-- Embeds `path.Child` (parse.go lines 38-47): allocate a fresh slice of
length `len(fields)+1` and copy `append(p.fields, child)` into it. -/
def path.Child (p : path) (child : String) : path :=
  let subfields := goCopy (List.replicate (p.fields.length + 1) "") (p.fields ++ [child])
  { root := p.root, fields := subfields }

mutual
/-- Embeds the subset of Go's `reflect.Type` universe the claims exercise:
scalars, slices, pointers, annotated struct shapes, and an inadmissible
function type. -/
inductive GoTy where
  | int : GoTy
  | str : GoTy
  | bool : GoTy
  | func : GoTy
  | slice (elem : GoTy) : GoTy
  | ptr (elem : GoTy) : GoTy
  | strct (name : String) (fields : GoFields) : GoTy

/-- Field list of a struct shape (a custom list so that all recursion over
shapes is plain structural recursion). -/
inductive GoFields where
  | nil : GoFields
  | cons (hd : GoField) (tl : GoFields) : GoFields

/-- One struct field: its name, whether it is embedded (anonymous), its type,
its `arg:"..."` tag (`""` = absent, as `reflect.StructTag.Get` reports), and
its `help:"..."` tag (`Option` because the code uses `Lookup` for it). -/
inductive GoField where
  | mk (name : String) (anonymous : Bool) (ty : GoTy) (argTag : String)
      (helpTag : Option String) : GoField
end

/-- Name of a field. -/
def GoField.name : GoField → String
  | .mk n _ _ _ _ => n

/-- Whether a field is embedded (anonymous). -/
def GoField.anonymous : GoField → Bool
  | .mk _ a _ _ _ => a

/-- Type of a field. -/
def GoField.ty : GoField → GoTy
  | .mk _ _ t _ _ => t

/-- The field's `arg` tag (empty string when absent). -/
def GoField.argTag : GoField → String
  | .mk _ _ _ tag _ => tag

/-- The field's `help` tag. -/
def GoField.helpTag : GoField → Option String
  | .mk _ _ _ _ h => h

/-- Embeds `reflect.Type.String()` for the types of our universe (used in the
"fields are not supported" diagnostic). -/
def GoTy.typeStr : GoTy → String
  | .int => "int"
  | .str => "string"
  | .bool => "bool"
  | .func => "func()"
  | .slice e => "[]" ++ e.typeStr
  | .ptr e => "*" ++ e.typeStr
  | .strct n _ => n

/-- Embeds `reflect.Type.Kind().String()` (used in the "must be pointers to
structs" diagnostics). -/
def GoTy.kindStr : GoTy → String
  | .int => "int"
  | .str => "string"
  | .bool => "bool"
  | .func => "func"
  | .slice _ => "slice"
  | .ptr _ => "ptr"
  | .strct _ _ => "struct"

/-- A scalar runtime value produced by coercion. -/
inductive Scalar where
  | int (n : Int) : Scalar
  | str (s : String) : Scalar
  | bool (b : Bool) : Scalar
deriving DecidableEq, Repr

/-- A value stored at a destination path: a scalar field, a slice field, or an
instantiated subcommand struct. -/
inductive Value where
  | scalar (v : Scalar) : Value
  | list (vs : List Scalar) : Value
  | record : Value
deriving DecidableEq, Repr

/-- ASCII lower-casing of one character (model of `strings.ToLower`). -/
def lowerChar (c : Char) : Char :=
  if 'A' ≤ c ∧ c ≤ 'Z' then Char.ofNat (c.toNat + 32) else c

/-- ASCII upper-casing of one character (model of `strings.ToUpper`). -/
def upperChar (c : Char) : Char :=
  if 'a' ≤ c ∧ c ≤ 'z' then Char.ofNat (c.toNat - 32) else c

/-- Model of `strings.ToLower` on the ASCII names the code lower-cases. -/
def lowerStr (s : String) : String := ⟨s.toList.map lowerChar⟩

/-- Model of `strings.ToUpper` on the ASCII names the code upper-cases. -/
def upperStr (s : String) : String := ⟨s.toList.map upperChar⟩

/-- Embeds `strings.TrimLeft(s, "-")`: drop every leading dash. -/
def trimDashes (s : String) : String := ⟨s.toList.dropWhile (· = '-')⟩

/-- Embeds `strings.TrimLeft(key, " ")`: drop every leading space. -/
def trimSpaces (s : String) : String := ⟨s.toList.dropWhile (· = ' ')⟩

/-- Drop the first `n` characters of a string (Go's `key[n:]` on ASCII keys). -/
def dropChars (n : Nat) (s : String) : String := ⟨s.toList.drop n⟩

/-- Embeds `strings.HasPrefix`. -/
def strHasPfx (s pre : String) : Bool := pre.toList.isPrefixOf s.toList

/-- Embeds `strings.Split(s, sep)` for a one-character separator. -/
def splitCharAux (sep : Char) : List Char → List Char → List String
  | [], acc => [⟨acc.reverse⟩]
  | c :: rest, acc =>
      if c = sep then (⟨acc.reverse⟩ : String) :: splitCharAux sep rest []
      else splitCharAux sep rest (c :: acc)

/-- Embeds `strings.Split(s, sep)` for a one-character separator. -/
def splitChar (sep : Char) (s : String) : List String := splitCharAux sep s.toList []

/-- Embeds `isFlag` (parse.go lines 606-608): a token is a flag when it starts
with a dash and is not made of dashes only. -/
def isFlag (s : String) : Bool := strHasPfx s "-" && trimDashes s ≠ ""

/-- Splits `opt` at the first occurrence of `c` (Go's `strings.Index` plus
slicing, as used for `--foo=bar` and for tag `key:value` pairs); the second
component is `""` when `c` does not occur. -/
def splitFirst (c : Char) (s : String) : String × String :=
  match s.toList.span (· ≠ c) with
  | (_, []) => (s, "")
  | (pre, _ :: post) => (⟨pre⟩, ⟨post⟩)

/-- Decimal digit accumulator for the integer-coercion model. -/
def parseDigitsAux : List Char → Nat → Option Nat
  | [], acc => some acc
  | c :: rest, acc =>
      if c.isDigit then parseDigitsAux rest (acc * 10 + (c.toNat - 48)) else none

/-- Model of the external scalar library's integer coercion (spec section 6
treats string-to-scalar coercion as a black-box collaborator): an optional
sign followed by at least one decimal digit. -/
def parseIntStr (s : String) : Option Int :=
  match s.toList with
  | [] => none
  | '-' :: rest =>
      match rest with
      | [] => none
      | _ => (parseDigitsAux rest 0).map (fun n => -(n : Int))
  | '+' :: rest =>
      match rest with
      | [] => none
      | _ => (parseDigitsAux rest 0).map (fun n => (n : Int))
  | cs => (parseDigitsAux cs 0).map (fun n => (n : Int))

/-- Model of `strconv.ParseBool`, the boolean coercion of the external scalar
library. -/
def parseBoolStr (s : String) : Option Bool :=
  if s = "1" ∨ s = "t" ∨ s = "T" ∨ s = "TRUE" ∨ s = "true" ∨ s = "True" then some true
  else if s = "0" ∨ s = "f" ∨ s = "F" ∨ s = "FALSE" ∨ s = "false" ∨ s = "False" then some false
  else none

/-- Model of the external scalar coercion `scalar.ParseValue` restricted to
our type universe: parse into the pointed-to type through pointers, fail on
non-scalar types. -/
def parseScalar : GoTy → String → Option Scalar
  | .int, s => (parseIntStr s).map .int
  | .str, s => some (.str s)
  | .bool, s => (parseBoolStr s).map .bool
  | .ptr t, s => parseScalar t s
  | _, _ => none

/-- Model of the external `scalar.CanParse` on our universe (scalars are
parseable, recursing through pointers). -/
def scalarCanParse : GoTy → Bool
  | .int => true
  | .str => true
  | .bool => true
  | .ptr t => scalarCanParse t
  | _ => false

/-- Embeds `canParseWrapped` (reflect.go lines 13-18); no type of our universe
implements ArgUnmarshaler, so this is the scalar-library check. -/
def canParseWrapped (t : GoTy) : Bool := scalarCanParse t

/-- Embeds `isBoolean` (reflect.go lines 59-72). -/
def isBoolean : GoTy → Bool
  | .bool => true
  | .ptr .bool => true
  | _ => false

/-- Embeds `canParse` (reflect.go lines 21-56): returns
`(parseable, boolean, multiple)` after unwrapping at most pointer, then
slice, then pointer again. -/
def canParse (t : GoTy) : Bool × Bool × Bool :=
  if canParseWrapped t then (true, isBoolean t, false)
  else
    let t1 := match t with | .ptr e => e | other => other
    let (t2, mult) := match t1 with | .slice e => (e, true) | other => (other, false)
    if canParseWrapped t2 then (true, isBoolean t2, mult)
    else
      let t3 := match t2 with | .ptr e => e | other => other
      if canParseWrapped t3 then (true, isBoolean t3, mult)
      else (false, false, false)

/-- Embeds `spec` (parse.go lines 50-62): one command-line option. -/
structure spec where
  dest : path
  typ : GoTy
  long : String
  short : String
  multiple : Bool
  required : Bool
  positional : Bool
  separate : Bool
  help : String
  env : String
  boolean : Bool

mutual
/-- Embeds `command` (parse.go lines 65-72): a named subcommand or the
top-level command.  The Go `parent` back-pointer is only used by the help
renderer (out of scope) and is dropped here. -/
inductive command where
  | mk (name : String) (help : String) (dest : path) (specs : List spec)
      (subcommands : commandList) : command

/-- Subcommand list (a custom list so that recursion over the command tree is
plain structural recursion). -/
inductive commandList where
  | nil : commandList
  | cons (hd : command) (tl : commandList) : commandList
end

/-- Name of a command. -/
def command.name : command → String
  | .mk n _ _ _ _ => n

/-- Help text of a command. -/
def command.help : command → String
  | .mk _ h _ _ _ => h

/-- Destination path of a command. -/
def command.dest : command → path
  | .mk _ _ d _ _ => d

/-- Option specs owned by a command. -/
def command.specs : command → List spec
  | .mk _ _ _ sps _ => sps

/-- Subcommand children of a command. -/
def command.subcommands : command → commandList
  | .mk _ _ _ _ subs => subs

/-- A command with its help text replaced (Go: `subcmd.help = field.Tag.Get("help")`). -/
def command.withHelp : command → String → command
  | .mk n _ d sps subs, h => .mk n h d sps subs

/-- Append on subcommand lists. -/
def commandList.append : commandList → commandList → commandList
  | .nil, l => l
  | .cons c rest, l => .cons c (rest.append l)

/-- Emptiness test on subcommand lists. -/
def commandList.isNil : commandList → Bool
  | .nil => true
  | .cons _ _ => false

/-- Embeds `findSubcommand` (parse.go lines 704-711): first subcommand with
the given name. -/
def findSubcommand : commandList → String → Option command
  | .nil, _ => none
  | .cons c rest, name => if c.name = name then some c else findSubcommand rest name

/-- Embeds `findOption` (parse.go lines 691-701): first non-positional spec
whose long or short name matches. -/
def findOption : List spec → String → Option spec
  | [], _ => none
  | sp :: rest, name =>
      if sp.positional then findOption rest name
      else if sp.long = name ∨ sp.short = name then some sp
      else findOption rest name

/-- Embeds meaning of `walkFields` hitting a struct kind check
(`field.Type.Kind() == reflect.Struct`). -/
def GoTy.isStruct : GoTy → Bool
  | .strct _ _ => true
  | _ => false

/-- Embeds `strings.Join(errs, "\n")` as used by `cmdFromStruct`. -/
def joinLines : List String → String
  | [] => ""
  | [x] => x
  | x :: xs => x ++ "\n" ++ joinLines xs

/-- Embeds the `hasPositional` scan of `cmdFromStruct` (parse.go lines 347-352). -/
def hasPositional (specs : List spec) : Bool := specs.any (·.positional)

/-- Accumulator of the `walkFields` visitor in `cmdFromStruct`: the specs and
subcommands gathered into `cmd` so far plus the accumulated error strings. -/
structure BuildState where
  specs : List spec
  subs : commandList
  errs : List String

/-- Accumulator of the tag-key loop inside the visitor: the spec being built,
whether a `subcommand` key was seen, the subcommands and errors gathered so
far, and whether the loop aborted the field (`return false` inside the loop). -/
structure TagState where
  sp : spec
  isSub : Bool
  subs : commandList
  errs : List String
  aborted : Bool

mutual
/-- Embeds `cmdFromStruct` (parse.go lines 214-358): build a `command` from a
pointer-to-struct shape, accumulating field errors, then rejecting the level
if it mixes positional specs and subcommands.  Recursion is fuel-driven
(Go recurses over the reflected type, which is finite). -/
def cmdFromStructF : Nat → String → path → GoTy → Except String command
  | 0, _, _, _ => .error "recursion limit exceeded"
  | fuel+1, name, dest, t =>
    match t with
    | .ptr (.strct tname fs) =>
        let st := walkF fuel tname dest fs { specs := [], subs := .nil, errs := [] }
        if st.errs.isEmpty then
          if hasPositional st.specs && !st.subs.isNil then
            .error (dest.toStr ++ " cannot have both subcommands and positional arguments")
          else .ok (.mk name "" dest st.specs st.subs)
        else .error (joinLines st.errs)
    | .ptr other =>
        .error ("subcommands must be pointers to structs but " ++ dest.toStr
          ++ " is a pointer to " ++ other.kindStr)
    | other =>
        .error ("subcommands must be pointers to structs but " ++ dest.toStr
          ++ " is a " ++ other.kindStr)

/-- Embeds `walkFields` (parse.go lines 155-163) specialised to the visitor of
`cmdFromStruct`: visit each field in order, threading the accumulator. -/
def walkF : Nat → String → path → GoFields → BuildState → BuildState
  | 0, _, _, _, st => st
  | _+1, _, _, .nil, st => st
  | fuel+1, tname, dest, .cons f rest, st =>
      walkF fuel tname dest rest (visitF fuel tname dest f st)

/-- Embeds the visitor closure of `cmdFromStruct` (parse.go lines 233-340) for
one field: skip `-` tags, expand embedded structs in place, otherwise build a
spec from the tag keys, then either record a subcommand or append the spec and
check type admissibility. -/
def visitF : Nat → String → path → GoField → BuildState → BuildState
  | 0, _, _, _, st => st
  | fuel+1, tname, dest, f, st =>
    let tag := f.argTag
    if tag = "-" then st
    else if f.anonymous && f.ty.isStruct then
      match f.ty with
      | .strct iname ifs => walkF fuel iname dest ifs st
      | _ => st
    else
      let subdest := dest.Child f.name
      let sp0 : spec :=
        { dest := subdest, typ := f.ty, long := lowerStr f.name, short := "",
          multiple := false, required := false, positional := false,
          separate := false, help := f.helpTag.getD "", env := "", boolean := false }
      let ts0 : TagState :=
        { sp := sp0, isSub := false, subs := st.subs, errs := st.errs, aborted := false }
      let ts := if tag = "" then ts0
                else processKeys fuel tname subdest f (splitChar ',' tag) ts0
      if ts.aborted then { specs := st.specs, subs := ts.subs, errs := ts.errs }
      else if ts.isSub then { specs := st.specs, subs := ts.subs, errs := ts.errs }
      else
        let r := canParse f.ty
        let sp1 := { ts.sp with boolean := r.2.1, multiple := r.2.2 }
        let errs1 :=
          if r.1 then ts.errs
          else ts.errs ++ [tname ++ "." ++ f.name ++ ": " ++ f.ty.typeStr
                           ++ " fields are not supported"]
        { specs := st.specs ++ [sp1], subs := ts.subs, errs := errs1 }

/-- Embeds the `for _, key := range strings.Split(tag, ",")` loop of the
visitor (parse.go lines 261-319): apply `applyKey` to each key in turn;
`aborted` corresponds to `return false` from inside the loop (it starts false
and is set exactly by the aborting branches, so testing it after each key is
the Go early return: remaining keys are not examined and the spec is not
appended). -/
def processKeys : Nat → String → path → GoField → List String → TagState → TagState
  | 0, _, _, _, _, ts => ts
  | _+1, _, _, _, [], ts => ts
  | fuel+1, tname, subdest, f, k :: rest, ts =>
    let ts1 := applyKey fuel tname subdest f k ts
    if ts1.aborted then ts1 else processKeys fuel tname subdest f rest ts1

/-- Embeds the body of the tag-key loop (parse.go lines 262-318) for one key:
trim spaces, split a `key:value`, dispatch on the key. -/
def applyKey : Nat → String → path → GoField → String → TagState → TagState
  | 0, _, _, _, _, ts => ts
  | fuel+1, tname, subdest, f, k, ts =>
    let kv := splitFirst ':' (trimSpaces k)
    let key := kv.1
    let value := kv.2
    if strHasPfx key "---" then
      { ts with errs := ts.errs ++ [tname ++ "." ++ f.name ++ ": too many hyphens"] }
    else if strHasPfx key "--" then
      { ts with sp := { ts.sp with long := dropChars 2 key } }
    else if strHasPfx key "-" then
      if key.length ≠ 2 then
        let msg := tname ++ "." ++ f.name ++ ": short arguments must be one character only"
        { ts with errs := ts.errs ++ [msg], aborted := true }
      else
        { ts with sp := { ts.sp with short := dropChars 1 key } }
    else if key = "required" then
      { ts with sp := { ts.sp with required := true } }
    else if key = "positional" then
      { ts with sp := { ts.sp with positional := true } }
    else if key = "separate" then
      { ts with sp := { ts.sp with separate := true } }
    else if key = "help" then
      { ts with sp := { ts.sp with help := value } }
    else if key = "env" then
      { ts with sp := { ts.sp with env := if value = "" then upperStr f.name else value } }
    else if key = "subcommand" then
      let cmdname := if value = "" then lowerStr f.name else value
      match cmdFromStructF fuel cmdname subdest f.ty with
      | .error e => { ts with errs := ts.errs ++ [e], aborted := true }
      | .ok sub =>
          { ts with
            isSub := true
            subs := ts.subs.append (.cons (sub.withHelp (f.helpTag.getD "")) .nil) }
    else
      { ts with
        errs := ts.errs ++ ["unrecognized tag '" ++ key ++ "' on field " ++ f.argTag]
        aborted := true }
end

/-- Fuel given to the builder for all concrete schemas in this file (far more
than their nesting depth). -/
def buildFuel : Nat := 100

/-- Embeds the per-destination loop of `NewParser` (parse.go lines 190-209):
build a command for each destination (root index `i`), concatenating their
specs and subcommands; the first failing destination aborts. -/
def newParserAux (name : String) : Nat → List GoTy → Except String (List spec × commandList)
  | _, [] => .ok ([], .nil)
  | i, t :: rest =>
    match cmdFromStructF buildFuel name { root := i, fields := [] } t with
    | .error e => .error e
    | .ok c =>
        match newParserAux name (i+1) rest with
        | .error e => .error e
        | .ok (sps, subs) => .ok (c.specs ++ sps, c.subcommands.append subs)

/-- Embeds `NewParser` (parse.go lines 166-212) restricted to schema
construction: the root command named `name` holding the union of every
destination's specs and subcommands. -/
def newParser (name : String) (dests : List GoTy) : Except String command :=
  match newParserAux name 0 dests with
  | .error e => .error e
  | .ok (sps, subs) => .ok (.mk name "" { root := 0, fields := [] } sps subs)

/-- The destination records, embedded as an association from field paths to
the value last written there.  An absent entry is the Go zero value of the
field (in particular a nil slice). -/
def Store := List (path × Value)

/-- Write a value at a path (later writes shadow earlier ones). -/
def setVal (st : Store) (p : path) (v : Value) : Store := (p, v) :: st

/-- Read the value last written at a path. -/
def getVal : Store → path → Option Value
  | [], _ => none
  | (q, v) :: rest, p => if q = p then some v else getVal rest p

/-- True when `q` lies at or below `p` in the destination records. -/
def pathUnder (p q : path) : Bool := p.root = q.root && p.fields.isPrefixOf q.fields

/-- Embeds `v.Set(reflect.New(...))` on a subcommand destination (parse.go
lines 465-466): the field now points at a fresh zero struct, so everything at
or below the path is reset before the `record` marker is written. -/
def instantiateAt (st : Store) (p : path) : Store :=
  setVal (st.filter (fun e => !pathUnder p e.1)) p .record

/-- The environment snapshot (spec section 6): a name-to-value mapping. -/
def Env := List (String × String)

/-- Embeds `os.LookupEnv`. -/
def lookupEnv : Env → String → Option String
  | [], _ => none
  | (k, v) :: rest, name => if k = name then some v else lookupEnv rest name

/-- Embeds the runtime errors of `Parser.process` / `Parser.Parse`: one
constructor per `fmt.Errorf` call site (carrying the interpolated data) plus
the `ErrHelp` / `ErrVersion` sentinels; `fuelExhausted` is the artefact of the
fuel-driven loop and is never reachable from `process`. -/
inductive PErr where
  | help : PErr
  | version : PErr
  | invalidSubcommand (name : String) : PErr
  | unknownArgument (arg : String) : PErr
  | missingValue (arg : String) : PErr
  | processing (what : String) : PErr
  | envCSV (envVar : String) : PErr
  | envProcessing (envVar : String) : PErr
  | required (name : String) : PErr
  | tooManyPositionals (first : String) : PErr
  | fuelExhausted : PErr
deriving DecidableEq, Repr

/-- Embeds `parseValue` (parse.go lines 634-657) at a destination path: coerce
the string to the field's type and store it, or fail.  (No type of our
universe implements ArgUnmarshaler, so the branch taken is the scalar one.) -/
def parseValueAt (st : Store) (p : path) (t : GoTy) (s : String) : Except Unit Store :=
  match parseScalar t s with
  | some v => .ok (setVal st p (.scalar v))
  | none => .error ()

/-- Coerce every collected string to the element type (the loop body of
`setSlice`); `none` when some coercion fails. -/
def parseAll (t : GoTy) : List String → Option (List Scalar)
  | [] => some []
  | s :: rest =>
      match parseScalar t s with
      | none => none
      | some v => (parseAll t rest).map (v :: ·)

/-- Embeds `setSlice` (parse.go lines 660-688) at a destination path: find the
element type (unwrapping one pointer level inside the slice), truncate the
existing contents when `trunc` is set and the slice is non-nil, then append
the coerced values.  A non-slice destination is a write failure (Go would
panic in `SetLen` for the `*[]T` case; no claim exercises it). -/
def setSliceAt (st : Store) (p : path) (t : GoTy) (values : List String) (trunc : Bool) :
    Except Unit Store :=
  match t with
  | .slice e =>
      let elemTy := match e with | .ptr e1 => e1 | other => other
      let cur := match getVal st p with
        | some (.list vs) => (vs, false)
        | some _ => (([] : List Scalar), false)
        | none => (([] : List Scalar), true)
      let start := if trunc && !cur.2 then [] else cur.1
      match parseAll elemTy values with
      | none => .error ()
      | some parsed => .ok (setVal st p (.list (start ++ parsed)))
  | _ => .error ()

/-- Embeds `nextIsNumeric` (parse.go lines 592-603) on our universe: recurse
through pointers; for the integer kind, test whether the scalar coercion
accepts the token; all other kinds answer false. -/
def nextIsNumeric : GoTy → String → Bool
  | .ptr t, s => nextIsNumeric t s
  | .int, s => (parseIntStr s).isSome
  | _, _ => false

/-- Model of the `encoding/csv` single-record read used for multi-valued
environment variables (an external library; claims only exercise unquoted
values, for which it is a comma split). -/
def csvSplit (s : String) : Option (List String) := some (splitChar ',' s)

/-- Embeds `Parser.captureEnvVars` (parse.go lines 379-417): for each spec
declaring an environment variable that the snapshot holds, coerce its value
into the destination (CSV-split for multi-valued specs) and mark the spec
present. -/
def captureEnvVars (env : Env) : List spec → Store → List path → Except PErr (Store × List path)
  | [], st, pres => .ok (st, pres)
  | sp :: rest, st, pres =>
    if sp.env = "" then captureEnvVars env rest st pres
    else
      match lookupEnv env sp.env with
      | none => captureEnvVars env rest st pres
      | some value =>
        if sp.multiple then
          match csvSplit value with
          | none => .error (.envCSV sp.env)
          | some values =>
              match setSliceAt st sp.dest sp.typ values (!sp.separate) with
              | .error _ => .error (.envProcessing sp.env)
              | .ok st1 => captureEnvVars env rest st1 (pres ++ [sp.dest])
        else
          match parseValueAt st sp.dest sp.typ value with
          | .error _ => .error (.envProcessing sp.env)
          | .ok st1 => captureEnvVars env rest st1 (pres ++ [sp.dest])

/-- Embeds the greedy value collection of the multi-value branch (parse.go
lines 510-516): consume tokens until one looks like a flag or the stream
ends; with `separate` set consume at most one.  Returns the collected values
and the remaining stream. -/
def collectValues (separate : Bool) : List String → List String × List String
  | [] => ([], [])
  | a :: rest =>
      if isFlag a then ([], a :: rest)
      else if separate then ([a], rest)
      else
        let vr := collectValues separate rest
        (a :: vr.1, vr.2)

/-- The mutable state of one interpretation pass (spec section 3,
ParseSession): the active spec union, the active command's children, the
all-positional mode flag, the buffered positionals, the presence map (keyed
by destination path, the identity of a spec), and the destination records. -/
structure PState where
  specs : List spec
  subs : commandList
  allpos : Bool
  positionals : List String
  present : List path
  store : Store

/-- Embeds the main token loop of `Parser.process` (parse.go lines 444-549).
The loop walks the stream with an explicit index; here the remaining stream
is passed explicitly and the fuel (initially the stream length) only bounds
the iteration count — every iteration consumes at least one token, so fuel
exhaustion is unreachable from `process`. -/
def stepArgs (env : Env) : Nat → PState → List String → Except PErr PState
  | _, s, [] => .ok s
  | 0, _, _ :: _ => .error .fuelExhausted
  | fuel+1, s, arg :: rest =>
    if arg = "--" then stepArgs env fuel { s with allpos := true } rest
    else if !isFlag arg || s.allpos then
      match s.subs with
      | .nil => stepArgs env fuel { s with positionals := s.positionals ++ [arg] } rest
      | .cons _ _ =>
        match findSubcommand s.subs arg with
        | none => .error (.invalidSubcommand arg)
        | some sub =>
          let st1 := instantiateAt s.store sub.dest
          match captureEnvVars env sub.specs st1 s.present with
          | .error e => .error e
          | .ok (st2, pres2) =>
              stepArgs env fuel
                { specs := s.specs ++ sub.specs
                  subs := sub.subcommands
                  allpos := s.allpos
                  positionals := s.positionals
                  present := pres2
                  store := st2 } rest
    else if arg = "-h" ∨ arg = "--help" then .error .help
    else if arg = "--version" then .error .version
    else
      let ov := splitFirst '=' (trimDashes arg)
      match findOption s.specs ov.1 with
      | none => .error (.unknownArgument arg)
      | some sp =>
        let pres1 := s.present ++ [sp.dest]
        if sp.multiple then
          let vr := if ov.2 = "" then collectValues sp.separate rest else ([ov.2], rest)
          match setSliceAt s.store sp.dest sp.typ vr.1 (!sp.separate) with
          | .error _ => .error (.processing arg)
          | .ok st1 => stepArgs env fuel { s with present := pres1, store := st1 } vr.2
        else
          let value := if sp.boolean && ov.2 = "" then "true" else ov.2
          if value = "" then
            match rest with
            | [] => .error (.missingValue arg)
            | nxt :: rest1 =>
              if !nextIsNumeric sp.typ nxt && isFlag nxt then .error (.missingValue arg)
              else
                match parseValueAt s.store sp.dest sp.typ nxt with
                | .error _ => .error (.processing arg)
                | .ok st1 => stepArgs env fuel { s with present := pres1, store := st1 } rest1
          else
            match parseValueAt s.store sp.dest sp.typ value with
            | .error _ => .error (.processing arg)
            | .ok st1 => stepArgs env fuel { s with present := pres1, store := st1 } rest

/-- Embeds the positional drain of `Parser.process` (parse.go lines 552-576):
walk the (grown) spec list in order; each positional spec consumes one
buffered value (or, if multi-valued, all of them, with truncation); leftover
values are a "too many positional arguments" error. -/
def drainPositionals : List spec → List String → Store → List path →
    Except PErr (Store × List path)
  | [], pos, st, pres =>
      match pos with
      | [] => .ok (st, pres)
      | p0 :: _ => .error (.tooManyPositionals p0)
  | sp :: rest, pos, st, pres =>
      if !sp.positional then drainPositionals rest pos st pres
      else
        match pos with
        | [] => .ok (st, pres)
        | p0 :: prest =>
          let pres1 := pres ++ [sp.dest]
          if sp.multiple then
            match setSliceAt st sp.dest sp.typ pos true with
            | .error _ => .error (.processing sp.long)
            | .ok st1 => drainPositionals rest [] st1 pres1
          else
            match parseValueAt st sp.dest sp.typ p0 with
            | .error _ => .error (.processing sp.long)
            | .ok st1 => drainPositionals rest prest st1 pres1

/-- Embeds the required-option validation of `Parser.process` (parse.go lines
579-587): the first in-scope required spec that is absent from the presence
map fails, named with its flag syntax for flags and its bare name for
positionals. -/
def checkRequired (pres : List path) : List spec → Except PErr Unit
  | [] => .ok ()
  | sp :: rest =>
      if sp.required && !pres.contains sp.dest then
        .error (.required (if sp.positional then sp.long else "--" ++ sp.long))
      else checkRequired pres rest

/-- Embeds `Parser.process` (parse.go lines 421-590): seed the environment for
the root specs, run the token loop, drain the positionals, then validate
required options.  Returns the final session state. -/
def process (root : command) (env : Env) (args : List String) (st0 : Store) :
    Except PErr PState :=
  match captureEnvVars env root.specs st0 [] with
  | .error e => .error e
  | .ok (st1, pres1) =>
    match stepArgs env args.length
        { specs := root.specs, subs := root.subcommands, allpos := false,
          positionals := [], present := pres1, store := st1 } args with
    | .error e => .error e
    | .ok s =>
      match drainPositionals s.specs s.positionals s.store s.present with
      | .error e => .error e
      | .ok (st2, pres2) =>
        match checkRequired pres2 s.specs with
        | .error e => .error e
        | .ok _ => .ok { s with positionals := [], store := st2, present := pres2 }

/-- The retroactive help scan of `Parser.Parse` (parse.go lines 365-373):
on failure, a `-h` or `--help` token before the first `--` turns the error
into the help signal. -/
def helpOverride : List String → PErr → PErr
  | [], e => e
  | a :: rest, e =>
      if a = "-h" ∨ a = "--help" then .help
      else if a = "--" then e
      else helpOverride rest e

/-- Embeds `Parser.Parse` (parse.go lines 362-376): run `process` and apply
the retroactive help scan to any failure. -/
def parserParse (root : command) (env : Env) (args : List String) (st0 : Store) :
    Except PErr PState :=
  match process root env args st0 with
  | .ok s => .ok s
  | .error e => .error (helpOverride args e)

/-- The value a successful interpretation leaves at a path (`none` when the
interpretation failed or the field was never written). -/
def resultVal (r : Except PErr PState) (p : path) : Option Value :=
  match r with
  | .ok s => getVal s.store p
  | .error _ => none

/-- Whether a successful interpretation marked the spec at `p` present. -/
def resultPresent (r : Except PErr PState) (p : path) : Bool :=
  match r with
  | .ok s => s.present.contains p
  | .error _ => false

/-- Whether an `Except` is a success. -/
def isOkE {α β : Type} : Except α β → Bool
  | .ok _ => true
  | .error _ => false

/-- The error of a failed interpretation (`none` on success). -/
def resultErr (r : Except PErr PState) : Option PErr :=
  match r with
  | .ok _ => none
  | .error e => some e

mutual
/-- The mutual-exclusion invariant of spec section 3: a command node never has
both a positional spec and subcommand children, recursively. -/
def goodCmd : command → Bool
  | .mk _ _ _ sps subs => (!hasPositional sps || subs.isNil) && goodList subs

/-- `goodCmd` on every node of a subcommand list. -/
def goodList : commandList → Bool
  | .nil => true
  | .cons c rest => goodCmd c && goodList rest
end

mutual
/-- Every spec of a command tree is multi-valued (the hypothesis of claim
C10), recursively over subcommands. -/
def cmdMulti : command → Bool
  | .mk _ _ _ sps subs => sps.all (·.multiple) && multiList subs

/-- `cmdMulti` on every node of a subcommand list. -/
def multiList : commandList → Bool
  | .nil => true
  | .cons c rest => cmdMulti c && multiList rest
end

/-- Fallback command for extracting a build result (never used: every build
below succeeds). -/
def emptyCmd : command := .mk "prog" "" { root := 0, fields := [] } [] .nil

/-- Extract the command of a successful build. -/
def builtCmd (r : Except String command) : command :=
  match r with
  | .ok c => c
  | .error _ => emptyCmd

/-- The claim C1 schema: a root whose only field is the subcommand `serve`,
itself holding one required integer option `--port`. -/
def serveShape : GoTy :=
  .ptr (.strct "Root"
    (.cons (.mk "Serve" false
        (.ptr (.strct "ServeCmd" (.cons (.mk "Port" false .int "required" none) .nil)))
        "subcommand:serve" none)
      .nil))

/-- The parser schema built from `serveShape`. -/
def serveRoot : command := builtCmd (newParser "prog" [serveShape])

/-- Destination path of the `serve` subcommand struct. -/
def servePath : path := { root := 0, fields := ["Serve"] }

/-- Destination path of `serve`'s `--port` option. -/
def portPath : path := { root := 0, fields := ["Serve", "Port"] }

/-- The claim C3 schema: one integer option `--foo` backed by the environment
variable `FOO`. -/
def fooShape : GoTy :=
  .ptr (.strct "Root" (.cons (.mk "Foo" false .int "env:FOO" none) .nil))

/-- The parser schema built from `fooShape`. -/
def fooRoot : command := builtCmd (newParser "prog" [fooShape])

/-- Destination path of `--foo`. -/
def fooPath : path := { root := 0, fields := ["Foo"] }

/-- The claim C5 schema: one integer option `--count`. -/
def countShape : GoTy :=
  .ptr (.strct "Root" (.cons (.mk "Count" false .int "" none) .nil))

/-- The parser schema built from `countShape`. -/
def countRoot : command := builtCmd (newParser "prog" [countShape])

/-- Destination path of `--count`. -/
def countPath : path := { root := 0, fields := ["Count"] }

/-- The claims C2/C10 schema: one multi-valued string option `--tag` without
`separate`. -/
def tagShape : GoTy :=
  .ptr (.strct "Root" (.cons (.mk "Tag" false (.slice .str) "" none) .nil))

/-- The parser schema built from `tagShape`. -/
def tagRoot : command := builtCmd (newParser "prog" [tagShape])

/-- Destination path of `--tag`. -/
def tagPath : path := { root := 0, fields := ["Tag"] }

/-- A store in which `--tag`'s destination slice holds the pre-populated
default contents `["d"]`. -/
def tagStore0 : Store := [(tagPath, .list [.str "d"])]

/-- The claim C6 schema: one multi-valued string option `--tag` with
`separate` set. -/
def tagSepShape : GoTy :=
  .ptr (.strct "Root" (.cons (.mk "Tag" false (.slice .str) "separate" none) .nil))

/-- The parser schema built from `tagSepShape`. -/
def tagSepRoot : command := builtCmd (newParser "prog" [tagSepShape])

/-- The retroactive help scan of `Parser.Parse`, stated the way the spec words
it: some token equal to `-h` or `--help` occurs in the raw stream before the
first `--` token. -/
def helpTokenBeforeTerminator (args : List String) : Bool :=
  (args.takeWhile (fun a => a ≠ "--")).any (fun a => a = "-h" || a = "--help")

/-- The command built directly from `serveShape` (the claim C7 witness
schema). -/
def serveTopCmd : command :=
  builtCmd (cmdFromStructF 100 "prog" { root := 0, fields := [] } serveShape)

/-- A shape declaring, at one record level, both a positional option and a
subcommand (rejected by the builder). -/
def bothShape : GoTy :=
  .ptr (.strct "Root"
    (.cons (.mk "P" false .str "positional" none)
      (.cons (.mk "Serve" false
          (.ptr (.strct "ServeCmd" (.cons (.mk "Port" false .int "required" none) .nil)))
          "subcommand:serve" none)
        .nil)))

/-- C1: against a schema whose root has a subcommand child `serve` carrying a
required option `--port`, interpreting `["serve", "--port", "8080"]`
instantiates the serve destination record at its FieldPath, unions serve's
specs into the active set (so `--port` resolves), and sets port = 8080 with
no error; interpreting `["serve"]` returns a "required" error naming
`--port`; interpreting `["launch"]` returns an "invalid subcommand" error. -/
theorem c1_subcommand_dispatch :
    isOkE (newParser "prog" [serveShape]) = true
  ∧ resultVal (process serveRoot [] ["serve", "--port", "8080"] []) servePath = some .record
  ∧ resultVal (process serveRoot [] ["serve", "--port", "8080"] []) portPath
      = some (.scalar (.int 8080))
  ∧ resultErr (process serveRoot [] ["serve", "--port", "8080"] []) = none
  ∧ resultErr (process serveRoot [] ["serve"] []) = some (.required "--port")
  ∧ resultErr (process serveRoot [] ["launch"] []) = some (.invalidSubcommand "launch") := by
  refine ⟨by decide, by decide, by decide, by decide, by decide, by decide⟩

/-- C2 counterexample: for the multi-value option `--tag` without `separate`
whose destination holds the default contents `["d"]`, interpreting
`["--tag", "a", "--tag", "b"]` yields `["b"]` — the second occurrence wipes
the value collected by the first, contradicting the claim that values of
later occurrences are appended to those of earlier occurrences (truncation
once per pass). -/
theorem c2_later_occurrence_wipes_earlier :
    resultVal (process tagRoot [] ["--tag", "a", "--tag", "b"] tagStore0) tagPath
      = some (.list [.str "b"])
  ∧ resultVal (process tagRoot [] ["--tag", "a", "--tag", "b"] tagStore0) tagPath
      ≠ some (.list [.str "a", .str "b"]) := by
  refine ⟨by decide, by decide⟩

/-- C2 amended: supplying a multi-value option without `separate` replaces the
pre-populated default contents rather than appending to them, and this
truncation happens at every occurrence of the flag in the token stream — a
later occurrence of the same flag replaces (does not append to) the values
collected by earlier occurrences, so the last occurrence wins. -/
theorem c2_truncation_every_occurrence :
    resultVal (process tagRoot [] ["--tag", "a"] tagStore0) tagPath = some (.list [.str "a"])
  ∧ resultVal (process tagRoot [] ["--tag", "a", "--tag", "b"] tagStore0) tagPath
      = some (.list [.str "b"])
  ∧ resultErr (process tagRoot [] ["--tag", "a", "--tag", "b"] tagStore0) = none := by
  refine ⟨by decide, by decide, by decide⟩

/-- C3: with `FOO=5` in the environment and option `foo` declared `env:FOO`,
interpreting the empty token stream seeds the destination from the
environment and marks the option present (so `foo == 5` with no error), and
interpreting `["--foo", "9"]` yields `foo == 9`: the CLI token, consumed
after the seeding, overrides the environment value. -/
theorem c3_env_seeding_and_cli_override :
    resultVal (process fooRoot [("FOO", "5")] [] []) fooPath = some (.scalar (.int 5))
  ∧ resultPresent (process fooRoot [("FOO", "5")] [] []) fooPath = true
  ∧ resultErr (process fooRoot [("FOO", "5")] [] []) = none
  ∧ resultVal (process fooRoot [("FOO", "5")] ["--foo", "9"] []) fooPath
      = some (.scalar (.int 9))
  ∧ resultErr (process fooRoot [("FOO", "5")] ["--foo", "9"] []) = none := by
  refine ⟨by decide, by decide, by decide, by decide, by decide⟩

/-- C6: interpreting `["--tag", "a", "--tag", "b"]` against a multi-value
string option with `separate` set yields the destination slice
`["a", "b"]` in that order: each occurrence consumes exactly one value and
appends it. -/
theorem c6_separate_accumulates_in_order :
    resultVal (process tagSepRoot [] ["--tag", "a", "--tag", "b"] []) tagPath
      = some (.list [.str "a", .str "b"])
  ∧ resultErr (process tagSepRoot [] ["--tag", "a", "--tag", "b"] []) = none := by
  refine ⟨by decide, by decide⟩

/-- The loop of `Parser.Parse` computes exactly the spec-side predicate
`helpTokenBeforeTerminator`. -/
theorem helpOverride_eq_scan (e : PErr) :
    ∀ args : List String,
      helpOverride args e = if helpTokenBeforeTerminator args then PErr.help else e := by
  intro args
  induction args with
  | nil => simp [helpOverride, helpTokenBeforeTerminator]
  | cons a rest ih =>
    by_cases h1 : a = "-h" ∨ a = "--help"
    · rcases h1 with h1 | h1 <;> subst h1 <;>
        simp [helpOverride, helpTokenBeforeTerminator, List.takeWhile]
    · push_neg at h1
      by_cases h2 : a = "--"
      · subst h2
        simp [helpOverride, helpTokenBeforeTerminator, List.takeWhile]
      · have hne1 : (a = "-h") = False := by simp [h1.1]
        have hne2 : (a = "--help") = False := by simp [h1.2]
        simp only [helpOverride, helpTokenBeforeTerminator, List.takeWhile] at ih ⊢
        simp [h1.1, h1.2, h2, ih]

/-- C4: whenever `process` fails with some error, `Parse` returns the help
signal instead of that error exactly when a token equal to `-h` or `--help`
occurs in the raw stream before the first `--` token; otherwise the original
error is returned unchanged. -/
theorem c4_retroactive_help (root : command) (env : Env) (args : List String)
    (st0 : Store) (e : PErr) (h : process root env args st0 = .error e) :
    parserParse root env args st0 =
      .error (if helpTokenBeforeTerminator args then PErr.help else e) := by
  unfold parserParse
  rw [h]
  show Except.error (helpOverride args e) = _
  rw [helpOverride_eq_scan]

/-- C4 witness: `["--bogus", "-h"]` fails processing with an unknown-argument
error, and since `-h` precedes any `--`, `Parse` reports the help signal. -/
theorem c4_retroactive_help_witness :
    parserParse countRoot [] ["--bogus", "-h"] [] = .error .help := by
  have h : process countRoot [] ["--bogus", "-h"] [] = .error (.unknownArgument "--bogus") := rfl
  exact (c4_retroactive_help countRoot [] ["--bogus", "-h"] []
    (.unknownArgument "--bogus") h).trans (by rfl)

/-- C5: for the non-boolean single-value integer option `--count`, a flag
occurrence with no inline value consumes the next token whenever the scalar
coercion accepts it as a numeric literal — even a flag-shaped one such as
`-5` — and `["--count", s]` is a "missing value" error exactly when `s` is
flag-shaped and not numeric for the target type (a non-flag non-numeric token
is consumed and fails coercion instead); the error also arises when the
stream ends after the flag. -/
theorem c5_negative_number_disambiguation (s : String) :
    (∀ n : Int, parseIntStr s = some n →
        resultErr (process countRoot [] ["--count", s] []) = none
      ∧ resultVal (process countRoot [] ["--count", s] []) countPath
          = some (.scalar (.int n)))
  ∧ (parseIntStr s = none → isFlag s = true →
      process countRoot [] ["--count", s] [] = .error (.missingValue "--count"))
  ∧ (parseIntStr s = none → isFlag s = false →
      process countRoot [] ["--count", s] [] = .error (.processing "--count"))
  ∧ process countRoot [] ["--count"] [] = .error (.missingValue "--count") := by
  have hproc : process countRoot [] ["--count", s] [] =
      (match stepArgs [] 2
          { specs := countRoot.specs, subs := .nil, allpos := false, positionals := [],
            present := [], store := [] } ["--count", s] with
       | .error e => .error e
       | .ok st =>
         match drainPositionals st.specs st.positionals st.store st.present with
         | .error e => .error e
         | .ok (st2, pres2) =>
           match checkRequired pres2 st.specs with
           | .error e => .error e
           | .ok _ => .ok { st with positionals := [], store := st2, present := pres2 }) := rfl
  have hstep : stepArgs [] 2
      { specs := countRoot.specs, subs := .nil, allpos := false, positionals := [],
        present := [], store := [] } ["--count", s] =
      (if !nextIsNumeric GoTy.int s && isFlag s then .error (.missingValue "--count")
       else match parseValueAt [] countPath GoTy.int s with
         | .error _ => .error (.processing "--count")
         | .ok st1 => .ok { specs := countRoot.specs, subs := .nil, allpos := false,
                            positionals := [], present := [countPath], store := st1 }) := rfl
  have hdrain : ∀ st : Store, drainPositionals countRoot.specs [] st [countPath]
      = .ok (st, [countPath]) := fun _ => rfl
  have hreq : checkRequired [countPath] countRoot.specs = .ok () := rfl
  refine ⟨?_, ?_, ?_, ?_⟩
  · intro n hn
    have hnum : (!nextIsNumeric GoTy.int s && isFlag s) = false := by
      simp [nextIsNumeric, hn]
    have hpv : parseValueAt [] countPath GoTy.int s
        = .ok [(countPath, Value.scalar (.int n))] := by
      simp [parseValueAt, parseScalar, hn, setVal]
    rw [hproc, hstep]
    simp only [hnum, Bool.false_eq_true, if_false, hpv, hdrain, hreq,
      resultErr, resultVal, getVal]
    simp [getVal]
  · intro hn hf
    have hnum : (!nextIsNumeric GoTy.int s && isFlag s) = true := by
      simp [nextIsNumeric, hn, hf]
    rw [hproc, hstep]
    simp [hnum]
  · intro hn hf
    have hnum : (!nextIsNumeric GoTy.int s && isFlag s) = false := by simp [hf]
    have hpv : parseValueAt [] countPath GoTy.int s = .error () := by
      simp [parseValueAt, parseScalar, hn]
    rw [hproc, hstep]
    simp [hnum, hpv]
  · rfl

/-- C5 witness: `["--count", "-5"]` yields `count = -5` with no error even
though `-5` is flag-shaped. -/
theorem c5_negative_number_disambiguation_witness :
    resultErr (process countRoot [] ["--count", "-5"] []) = none
  ∧ resultVal (process countRoot [] ["--count", "-5"] []) countPath
      = some (.scalar (.int (-5))) :=
  (c5_negative_number_disambiguation "-5").1 (-5) (by decide)

/-- C8: the builder accumulates field-level errors instead of
short-circuiting: for any record level containing a field of an inadmissible
(function) type followed by a field whose short-name tag is longer than one
character, `Build` completes the walk and returns the single combined error
naming both offending fields, in field order. -/
theorem c8_build_accumulates_field_errors (name tname n1 n2 : String) (dest : path) :
    cmdFromStructF 100 name dest
      (.ptr (.strct tname (.cons (.mk n1 false .func "" none)
        (.cons (.mk n2 false .int "-xy" none) .nil))))
    = .error ((tname ++ "." ++ n1 ++ ": " ++ "func()" ++ " fields are not supported")
        ++ "\n" ++ (tname ++ "." ++ n2 ++ ": short arguments must be one character only")) :=
  rfl

/-- C9: `Child` derives a fresh FieldPath: for every path `p` and names `a`
and `b`, `p.Child a` keeps `p`'s root index and its chain is `p`'s chain with
`a` appended, and the sibling `p.Child b` likewise — derived from the same
parent chain, the two siblings hold independent correct chains (in the model
`p`'s own chain is a value the call cannot mutate). -/
theorem c9_child_appends_without_aliasing (p : path) (a b : String) :
    (p.Child a).root = p.root ∧ (p.Child a).fields = p.fields ++ [a]
  ∧ (p.Child b).root = p.root ∧ (p.Child b).fields = p.fields ++ [b] := by
  have h : ∀ (q : path) (c : String), (q.Child c).fields = q.fields ++ [c] := by
    intro q c
    show goCopy (List.replicate (q.fields.length + 1) "") (q.fields ++ [c]) = q.fields ++ [c]
    unfold goCopy
    rw [List.length_replicate, List.length_append]
    rw [List.take_of_length_le (by simp), List.drop_eq_nil_of_le (by simp)]
    simp
  exact ⟨rfl, h p a, rfl, h p b⟩

/-- `goodCmd` holds of every node of an appended subcommand list iff it holds
of both parts. -/
theorem goodList_append : ∀ l1 l2 : commandList,
    goodList (l1.append l2) = (goodList l1 && goodList l2)
  | .nil, l2 => by simp [commandList.append, goodList]
  | .cons c rest, l2 => by
      simp [commandList.append, goodList, goodList_append rest l2, Bool.and_assoc]

/-- Replacing a command's help text does not affect the invariant. -/
theorem goodCmd_withHelp (c : command) (h : String) :
    goodCmd (c.withHelp h) = goodCmd c := by
  match c with
  | .mk n h0 d sps subs => rfl

/-- The builder invariant, proved for all four mutually recursive builder
functions at once by induction on the fuel: a successful `cmdFromStructF`
yields a tree every node of which satisfies `goodCmd`, and the walker /
visitor / tag-key functions can only extend the subcommand accumulator with
nodes that satisfy it. -/
theorem buildInvAll : ∀ fuel : Nat,
    (∀ name dest t cmd, cmdFromStructF fuel name dest t = .ok cmd → goodCmd cmd = true)
  ∧ (∀ tname dest fs st, goodList st.subs = true →
        goodList (walkF fuel tname dest fs st).subs = true)
  ∧ (∀ tname dest f st, goodList st.subs = true →
        goodList (visitF fuel tname dest f st).subs = true)
  ∧ (∀ tname subdest f ks ts, goodList ts.subs = true →
        goodList (processKeys fuel tname subdest f ks ts).subs = true)
  ∧ (∀ tname subdest f k ts, goodList ts.subs = true →
        goodList (applyKey fuel tname subdest f k ts).subs = true) := by
  intro fuel
  induction fuel with
  | zero =>
    refine ⟨?_, ?_, ?_, ?_, ?_⟩
    · intro name dest t cmd h; simp [cmdFromStructF] at h
    · intro tname dest fs st h; simpa [walkF] using h
    · intro tname dest f st h; simpa [visitF] using h
    · intro tname subdest f ks ts h; simpa [processKeys] using h
    · intro tname subdest f k ts h; simpa [applyKey] using h
  | succ n ih =>
    obtain ⟨ih1, ih2, ih3, ih4, ih5⟩ := ih
    refine ⟨?_, ?_, ?_, ?_, ?_⟩
    · -- cmdFromStructF: a successful build satisfies the invariant
      intro name dest t cmd h
      cases t with
      | ptr inner =>
        cases inner with
        | strct tname fs =>
          simp only [cmdFromStructF] at h
          split at h
          · split at h
            · exact absurd h (by simp)
            · rename_i hempty hmix
              have hcmd : cmd = .mk name "" dest
                  (walkF n tname dest fs { specs := [], subs := .nil, errs := [] }).specs
                  (walkF n tname dest fs { specs := [], subs := .nil, errs := [] }).subs :=
                (Except.ok.inj h).symm
              subst hcmd
              have hsubs : goodList
                  (walkF n tname dest fs { specs := [], subs := .nil, errs := [] }).subs
                  = true := ih2 tname dest fs _ (by simp [goodList])
              simp only [goodCmd]
              rw [hsubs, Bool.and_true]
              revert hmix
              generalize hasPositional
                (walkF n tname dest fs { specs := [], subs := .nil, errs := [] }).specs = A
              generalize (walkF n tname dest fs
                { specs := [], subs := .nil, errs := [] }).subs.isNil = B
              intro hmix
              cases A <;> cases B <;> simp_all
          · exact absurd h (by simp)
        | int => simp [cmdFromStructF] at h
        | str => simp [cmdFromStructF] at h
        | bool => simp [cmdFromStructF] at h
        | func => simp [cmdFromStructF] at h
        | slice e => simp [cmdFromStructF] at h
        | ptr e => simp [cmdFromStructF] at h
      | int => simp [cmdFromStructF] at h
      | str => simp [cmdFromStructF] at h
      | bool => simp [cmdFromStructF] at h
      | func => simp [cmdFromStructF] at h
      | slice e => simp [cmdFromStructF] at h
      | strct nm fs => simp [cmdFromStructF] at h
    · -- walkF: folding the visitor preserves the invariant
      intro tname dest fs st h
      cases fs with
      | nil => simpa [walkF] using h
      | cons f rest =>
        simp only [walkF]
        exact ih2 tname dest rest _ (ih3 tname dest f st h)
    · -- visitF: one field preserves the invariant
      intro tname dest f st h
      simp only [visitF]
      split
      · exact h
      · split
        · split
          · rename_i iname ifs heq
            exact ih2 iname dest ifs st h
          · exact h
        · repeat' split
          all_goals first
            | exact h
            | exact ih4 _ _ _ _ _ h
    · -- processKeys: the key loop preserves the invariant
      intro tname subdest f ks ts h
      cases ks with
      | nil => simpa [processKeys] using h
      | cons k rest =>
        simp only [processKeys]
        split
        · exact ih5 _ _ _ _ _ h
        · exact ih4 _ _ _ _ _ (ih5 _ _ _ _ _ h)
    · -- applyKey: one tag key preserves the invariant
      intro tname subdest f k ts h
      unfold applyKey
      simp only []
      by_cases h1 : strHasPfx (splitFirst ':' (trimSpaces k)).1 "---" = true
      · rw [if_pos h1]; exact h
      rw [if_neg h1]
      by_cases h2 : strHasPfx (splitFirst ':' (trimSpaces k)).1 "--" = true
      · rw [if_pos h2]; exact h
      rw [if_neg h2]
      by_cases h3 : strHasPfx (splitFirst ':' (trimSpaces k)).1 "-" = true
      · rw [if_pos h3]
        by_cases h3a : (splitFirst ':' (trimSpaces k)).1.length ≠ 2
        · rw [if_pos h3a]; exact h
        · rw [if_neg h3a]; exact h
      rw [if_neg h3]
      by_cases h4 : (splitFirst ':' (trimSpaces k)).1 = "required"
      · rw [if_pos h4]; exact h
      rw [if_neg h4]
      by_cases h5 : (splitFirst ':' (trimSpaces k)).1 = "positional"
      · rw [if_pos h5]; exact h
      rw [if_neg h5]
      by_cases h6 : (splitFirst ':' (trimSpaces k)).1 = "separate"
      · rw [if_pos h6]; exact h
      rw [if_neg h6]
      by_cases h7 : (splitFirst ':' (trimSpaces k)).1 = "help"
      · rw [if_pos h7]; exact h
      rw [if_neg h7]
      by_cases h8 : (splitFirst ':' (trimSpaces k)).1 = "env"
      · rw [if_pos h8]; exact h
      rw [if_neg h8]
      by_cases h9 : (splitFirst ':' (trimSpaces k)).1 = "subcommand"
      · rw [if_pos h9]
        split
        · exact h
        · rename_i sub heq
          show goodList (ts.subs.append (.cons (sub.withHelp (f.helpTag.getD "")) .nil)) = true
          rw [goodList_append, h]
          simp only [goodList, Bool.true_and, Bool.and_true, goodCmd_withHelp]
          exact ih1 _ _ _ _ heq
      rw [if_neg h9]
      exact h

/-- C7: positional arguments and subcommands are mutually exclusive at every
record level: every CommandNode produced by a successful `Build` — the root
and, recursively, every subcommand node — has no positional spec alongside
non-empty children (`goodCmd`); and a shape declaring both a positional field
and a subcommand field at one level fails `Build`. -/
theorem c7_positionals_and_subcommands_exclusive :
    (∀ fuel name dest t cmd, cmdFromStructF fuel name dest t = .ok cmd → goodCmd cmd = true)
  ∧ isOkE (cmdFromStructF 100 "prog" { root := 0, fields := [] } bothShape) = false := by
  constructor
  · intro fuel name dest t cmd h
    exact (buildInvAll fuel).1 name dest t cmd h
  · decide

/-- C7 witness: the serve schema builds successfully and the produced node
satisfies the exclusion invariant. -/
theorem c7_positionals_and_subcommands_exclusive_witness :
    goodCmd serveTopCmd = true :=
  c7_positionals_and_subcommands_exclusive.1 100 "prog" { root := 0, fields := [] }
    serveShape serveTopCmd rfl

/-- Environment seeding can fail only with its own CSV / coercion errors,
never with a "missing value" error. -/
theorem captureEnvVars_no_missing (env : Env) (specs : List spec) : ∀ st pres a,
    captureEnvVars env specs st pres ≠ .error (.missingValue a) := by
  induction specs with
  | nil => intro st pres a; simp [captureEnvVars]
  | cons sp rest ih =>
    intro st pres a
    simp only [captureEnvVars]
    split
    · exact ih st pres a
    · split
      · exact ih st pres a
      · split
        · split
          · simp
          · split
            · simp
            · exact ih _ _ a
        · split
          · simp
          · exact ih _ _ a

/-- The positional drain can fail only with coercion or too-many-positionals
errors, never with a "missing value" error. -/
theorem drainPositionals_no_missing (specs : List spec) : ∀ pos st pres a,
    drainPositionals specs pos st pres ≠ .error (.missingValue a) := by
  induction specs with
  | nil =>
    intro pos st pres a
    cases pos <;> simp [drainPositionals]
  | cons sp rest ih =>
    intro pos st pres a
    simp only [drainPositionals]
    split
    · exact ih pos st pres a
    · split
      · simp
      · split
        · split
          · simp
          · exact ih _ _ _ a
        · split
          · simp
          · exact ih _ _ _ a

/-- The required-option validation can fail only with a "required" error,
never with a "missing value" error. -/
theorem checkRequired_no_missing (pres : List path) (specs : List spec) : ∀ a,
    checkRequired pres specs ≠ .error (.missingValue a) := by
  induction specs with
  | nil => intro a; simp [checkRequired]
  | cons sp rest ih =>
    intro a
    simp only [checkRequired]
    split
    · simp
    · exact ih a

/-- `cmdMulti` unfolded into its two conjuncts. -/
theorem cmdMulti_parts (c : command) :
    cmdMulti c = (c.specs.all (·.multiple) && multiList c.subcommands) := by
  match c with
  | .mk n h d sps subs => rfl

/-- A subcommand found by name in an all-multi-valued tree is itself
all-multi-valued. -/
theorem findSubcommand_multi : ∀ (l : commandList) (name : String) (c : command),
    multiList l = true → findSubcommand l name = some c → cmdMulti c = true
  | .nil, name, c => by intro h1 h2; simp [findSubcommand] at h2
  | .cons c0 rest, name, c => by
      intro h1 h2
      simp only [findSubcommand] at h2
      simp only [multiList, Bool.and_eq_true] at h1
      split at h2
      · cases Option.some.inj h2; exact h1.1
      · exact findSubcommand_multi rest name c h1.2 h2

/-- An option found by name among all-multi-valued specs is multi-valued. -/
theorem findOption_multiple (l : List spec) : ∀ (name : String) (sp : spec),
    l.all (·.multiple) = true → findOption l name = some sp → sp.multiple = true := by
  induction l with
  | nil => intro name sp h1 h2; simp [findOption] at h2
  | cons s0 rest ih =>
    intro name sp h1 h2
    simp only [List.all_cons, Bool.and_eq_true] at h1
    simp only [findOption] at h2
    split at h2
    · exact ih name sp h1.2 h2
    · split at h2
      · cases Option.some.inj h2; exact h1.1
      · exact ih name sp h1.2 h2

/-- The token loop never produces a "missing value" error while every spec in
scope (including those any subcommand can contribute) is multi-valued: the
multi-value branch writes whatever values it collected, possibly none. -/
theorem stepArgs_no_missing (env : Env) : ∀ (fuel : Nat) (s : PState) (args : List String)
    (a : String), s.specs.all (·.multiple) = true → multiList s.subs = true →
    stepArgs env fuel s args ≠ .error (.missingValue a) := by
  intro fuel
  induction fuel with
  | zero =>
    intro s args a h1 h2
    cases args <;> simp [stepArgs]
  | succ n ih =>
    intro s args a h1 h2
    cases args with
    | nil => simp [stepArgs]
    | cons arg rest =>
      simp only [stepArgs]
      split
      · exact ih _ rest a h1 h2
      · split
        · split
          · exact ih _ rest a h1 h2
          · split
            · simp
            · rename_i sub heq
              split
              · rename_i e heqc
                intro hcontra
                have he : e = PErr.missingValue a := Except.error.inj hcontra
                rw [he] at heqc
                exact captureEnvVars_no_missing env sub.specs _ _ a heqc
              · rename_i pr heqc
                apply ih _ rest a
                · have hsub : cmdMulti sub = true :=
                    findSubcommand_multi s.subs arg sub h2 heq
                  rw [cmdMulti_parts, Bool.and_eq_true] at hsub
                  simp only [List.all_append, Bool.and_eq_true]
                  exact ⟨h1, hsub.1⟩
                · have hsub : cmdMulti sub = true :=
                    findSubcommand_multi s.subs arg sub h2 heq
                  rw [cmdMulti_parts, Bool.and_eq_true] at hsub
                  exact hsub.2
        · split
          · simp
          · split
            · simp
            · split
              · simp
              · rename_i sp heq
                have hm : sp.multiple = true := findOption_multiple s.specs _ sp h1 heq
                rw [hm]
                simp only [if_true]
                split
                · simp
                · exact ih _ _ a h1 h2

/-- C10: for every schema whose options (at the root and in every subcommand)
are all multi-valued, the interpreter never returns a "missing value" error
on any token stream; concretely, `--tag` at the end of the stream still
succeeds, records the option present, and writes the empty value list —
which, for this non-separate option, truncates the pre-populated default
contents to the empty slice. -/
theorem c10_multi_never_missing_value :
    (∀ (root : command) (env : Env) (args : List String) (st0 : Store) (a : String),
        root.specs.all (·.multiple) = true → multiList root.subcommands = true →
        process root env args st0 ≠ .error (.missingValue a))
  ∧ resultErr (process tagRoot [] ["--tag"] tagStore0) = none
  ∧ resultVal (process tagRoot [] ["--tag"] tagStore0) tagPath = some (.list [])
  ∧ resultPresent (process tagRoot [] ["--tag"] tagStore0) tagPath = true := by
  refine ⟨?_, by decide, by decide, by decide⟩
  intro root env args st0 a h1 h2
  simp only [process]
  split
  · rename_i e heq
    intro hc
    have he : e = PErr.missingValue a := Except.error.inj hc
    rw [he] at heq
    exact captureEnvVars_no_missing env root.specs _ _ a heq
  · rename_i pr heq
    split
    · rename_i e heq2
      intro hc
      have he : e = PErr.missingValue a := Except.error.inj hc
      rw [he] at heq2
      exact stepArgs_no_missing env args.length _ args a h1 h2 heq2
    · rename_i st heq2
      split
      · rename_i e heq3
        intro hc
        have he : e = PErr.missingValue a := Except.error.inj hc
        rw [he] at heq3
        exact drainPositionals_no_missing _ _ _ _ a heq3
      · rename_i pr2 heq3
        split
        · rename_i e heq4
          intro hc
          have he : e = PErr.missingValue a := Except.error.inj hc
          rw [he] at heq4
          exact checkRequired_no_missing _ _ a heq4
        · simp

/-- C10 witness: a non-separate multi-value flag followed immediately by
another flag occurrence is not a missing-value error. -/
theorem c10_multi_never_missing_value_witness :
    process tagRoot [] ["--tag", "--tag"] tagStore0 ≠ .error (.missingValue "--tag") :=
  c10_multi_never_missing_value.1 tagRoot [] ["--tag", "--tag"] tagStore0 "--tag"
    (by decide) (by decide)
